import Mathlib

/-! Shallow embedding of the NBA-Team-Efficiency scraper
(`src/NBA_Team_Efficiency.py`): value coercion, record merging,
rating merge, the fetch/retry loop and the export post-processing,
together with theorems about their behaviour. -/

namespace NBA

/-! Values.  A parsed cell holds the result of the `tryint` coercion:
a Python int, a Python float, or the raw string. -/

/-- Result of the Python `float()` coercion: a finite rational, a signed
infinity, or nan. -/
inductive PyNum where
  | finite (q : ℚ)
  | inf
  | neginf
  | nan
deriving DecidableEq, Repr

/-- A parsed cell value as produced by `tryint`: int, float, or raw string. -/
inductive Value where
  | int (n : Int)
  | float (f : PyNum)
  | str (s : String)
deriving DecidableEq, Repr

/-! String-to-number parsing, modelling the acceptance of Python
`int()` and `float()` on ASCII input: surrounding whitespace stripped,
optional sign, digit groups that may contain single underscores
between digits, and for floats an optional fraction, exponent and the
special words inf, infinity, nan. -/

/-- Characters stripped by Python numeric conversion. -/
def isPyWs (c : Char) : Bool :=
  c = ' ' || c = '\t' || c = '\n' || c = '\r' || c = '\x0b' || c = '\x0c'

/-- Strip leading and trailing Python whitespace. -/
def stripPyWs (cs : List Char) : List Char :=
  ((cs.dropWhile isPyWs).reverse.dropWhile isPyWs).reverse

/-- Numeric value of a list of decimal digit characters. -/
def digitsVal (ds : List Char) : Nat :=
  ds.foldl (fun n c => 10 * n + (c.toNat - 48)) 0

/-- Scan a digit group after its first digit: digits with single
underscores allowed only between digits.  Returns the digits collected
and the unconsumed remainder, or `none` on a malformed underscore. -/
def scanDigitsCore : List Char → List Char → Option (List Char × List Char)
  | acc, [] => some (acc.reverse, [])
  | acc, c :: rest =>
    if c.isDigit then scanDigitsCore (c :: acc) rest
    else if c = '_' then
      match rest with
      | [] => none
      | d :: rest2 => if d.isDigit then scanDigitsCore (d :: acc) rest2 else none
    else some (acc.reverse, c :: rest)

/-- Scan a nonempty digit group. -/
def scanDigits : List Char → Option (List Char × List Char)
  | [] => none
  | c :: rest => if c.isDigit then scanDigitsCore [c] rest else none

/-- Split an optional leading sign; `true` means negative. -/
def splitSign : List Char → Bool × List Char
  | '-' :: rest => (true, rest)
  | '+' :: rest => (false, rest)
  | cs => (false, cs)

/-- Python `int(s)` on ASCII input: `some n` when the conversion
succeeds, `none` when it raises `ValueError`. -/
def pyParseInt (s : String) : Option Int :=
  let cs := stripPyWs s.toList
  let sb := splitSign cs
  match scanDigits sb.2 with
  | some (ds, []) => some (if sb.1 then -(digitsVal ds : Int) else (digitsVal ds : Int))
  | _ => none

/-- Lower-case a character list. -/
def lowerList (cs : List Char) : List Char := cs.map Char.toLower

/-- Rational value of an integer digit part plus a fractional digit part. -/
def mkDec (ip fp : List Char) : ℚ :=
  (digitsVal ip : ℚ) + (digitsVal fp : ℚ) / ((10 : ℚ) ^ fp.length)

/-- Parse the mantissa of a float literal: `digits [. digits]`, `digits .`,
or `. digits`. -/
def parseMantissa (cs : List Char) : Option (ℚ × List Char) :=
  match scanDigits cs with
  | some (ip, rest) =>
    match rest with
    | '.' :: rest2 =>
      match rest2 with
      | c :: _ =>
        if c.isDigit then
          match scanDigits rest2 with
          | some (fp, rest3) => some (mkDec ip fp, rest3)
          | none => none
        else some (mkDec ip [], rest2)
      | [] => some (mkDec ip [], [])
    | _ => some (mkDec ip [], rest)
  | none =>
    match cs with
    | '.' :: rest2 =>
      match scanDigits rest2 with
      | some (fp, rest3) => some (mkDec [] fp, rest3)
      | none => none
    | _ => none

/-- Parse an optional exponent part `e[sign]digits`. -/
def parseExp : List Char → Option (Int × List Char)
  | [] => some (0, [])
  | c :: rest =>
    if c = 'e' || c = 'E' then
      let sb := splitSign rest
      match scanDigits sb.2 with
      | some (ds, rest2) =>
        some ((if sb.1 then -(digitsVal ds : Int) else (digitsVal ds : Int)), rest2)
      | none => none
    else some (0, c :: rest)

/-- Multiply a rational by a signed power of ten. -/
def mulPow10 (q : ℚ) (e : Int) : ℚ :=
  if 0 ≤ e then q * (10 : ℚ) ^ e.toNat else q / (10 : ℚ) ^ (-e).toNat

/-- Python `float(s)` on ASCII input: `some f` when the conversion
succeeds, `none` when it raises `ValueError`. -/
def pyParseFloat (s : String) : Option PyNum :=
  let cs := stripPyWs s.toList
  let sb := splitSign cs
  let low := lowerList sb.2
  if low = "inf".toList || low = "infinity".toList then
    some (if sb.1 then PyNum.neginf else PyNum.inf)
  else if low = "nan".toList then some PyNum.nan
  else
    match parseMantissa sb.2 with
    | none => none
    | some (m, rest) =>
      match parseExp rest with
      | none => none
      | some (e, rest2) =>
        if rest2 = [] then some (.finite (mulPow10 (if sb.1 then -m else m) e))
        else none

/-- Round a rational to the nearest integer, ties to even, as Python
`round` does. -/
def roundHalfEven (q : ℚ) : Int :=
  let f := ⌊q⌋
  let r := q - (f : ℚ)
  if r < 1 / 2 then f
  else if (1 : ℚ) / 2 < r then f + 1
  else if f % 2 = 0 then f else f + 1

/-- Python `round(x, 4)`: rounds a finite value to four decimal places
and leaves infinities and nan unchanged. -/
def pyRound4 : PyNum → PyNum
  | .finite q => .finite ((roundHalfEven (q * 10000) : ℚ) / 10000)
  | x => x

/-- Source `tryint`: try `int(mayben)`, then `round(float(mayben), 4)`,
else return the string unchanged. -/
def tryint (mayben : String) : Value :=
  match pyParseInt mayben with
  | some n => .int n
  | none =>
    match pyParseFloat mayben with
    | some f => .float (pyRound4 f)
    | none => .str mayben

/-! Team-code alias (source `fix_team`).  The year arrives as a string
and is converted with `int()` only when the team code is CHA, mirroring
the short-circuit of the Python `and`. -/

/-- Alias rule on an already-converted integer year. -/
def fix_team_int (team : String) (year : Int) : String :=
  if team = "CHA" ∧ year > 2014 then "CHO" else team

/-- Source `fix_team`: `none` models the `ValueError` raised by
`int(year)` on a non-numeric season string. -/
def fix_team (team : String) (year : String) : Option String :=
  if team = "CHA" then (pyParseInt year).map (fun y => if y > 2014 then "CHO" else team)
  else some team

/-! Python dicts as insertion-ordered association lists.  `dictSet`
updates an existing key in place or appends a new one, as CPython dict
assignment does; `dictMerge a b` is the merge `\x7b**a, **b\x7d`. -/

/-- First value stored under a key, if any. -/
def dictGet {K V : Type} [DecidableEq K] : List (K × V) → K → Option V
  | [], _ => none
  | (k1, v1) :: rest, k => if k = k1 then some v1 else dictGet rest k

/-- Dict assignment: replace the value at an existing key in place,
otherwise append the binding. -/
def dictSet {K V : Type} [DecidableEq K] : List (K × V) → K → V → List (K × V)
  | [], k, v => [(k, v)]
  | (k1, v1) :: rest, k, v =>
    if k = k1 then (k, v) :: rest else (k1, v1) :: dictSet rest k v

/-- Dict merge with the right operand winning on key collisions. -/
def dictMerge {K V : Type} [DecidableEq K] (a b : List (K × V)) : List (K × V) :=
  b.foldl (fun d kv => dictSet d kv.1 kv.2) a

/-- Build a dict from a binding list, later duplicates winning. -/
def mkDict {K V : Type} [DecidableEq K] (l : List (K × V)) : List (K × V) :=
  dictMerge [] l

/-- Keys of a dict, in insertion order. -/
def dictKeys {K V : Type} (d : List (K × V)) : List K := d.map Prod.fst

/-- Left-biased choice on options. -/
def oElse {V : Type} : Option V → Option V → Option V
  | some v, _ => some v
  | none, b => b

theorem dictGet_dictSet {K V : Type} [DecidableEq K]
    (d : List (K × V)) (k k2 : K) (v : V) :
    dictGet (dictSet d k v) k2 = if k2 = k then some v else dictGet d k2 := by
  induction d with
  | nil => by_cases h : k2 = k <;> simp [dictSet, dictGet, h]
  | cons hd tl ih =>
    obtain ⟨k1, v1⟩ := hd
    by_cases h1 : k = k1
    · subst h1
      by_cases h2 : k2 = k <;> simp [dictSet, dictGet, h2]
    · have hset : dictSet ((k1, v1) :: tl) k v = (k1, v1) :: dictSet tl k v := by
        simp [dictSet, h1]
      rw [hset]
      by_cases h2 : k2 = k1
      · subst h2
        have hne : ¬ k2 = k := fun he => h1 he.symm
        simp [dictGet, hne]
      · simp [dictGet, h2, ih]

theorem dictGet_eq_none_of_not_mem {K V : Type} [DecidableEq K]
    (d : List (K × V)) (k : K) (h : k ∉ d.map Prod.fst) :
    dictGet d k = none := by
  induction d with
  | nil => rfl
  | cons hd tl ih =>
    obtain ⟨k1, v1⟩ := hd
    have h1 : ¬ k = k1 := fun he => h (by simp [he])
    have h2 : k ∉ tl.map Prod.fst := fun hm => h (by simp [hm])
    simp [dictGet, h1, ih h2]

theorem dictGet_merge_none {K V : Type} [DecidableEq K]
    (b a : List (K × V)) (k : K) (hb : dictGet b k = none) :
    dictGet (dictMerge a b) k = dictGet a k := by
  induction b generalizing a with
  | nil => simp [dictMerge]
  | cons hd tl ih =>
    obtain ⟨k1, v1⟩ := hd
    have hne : ¬ k = k1 := by
      intro h; simp [dictGet, h] at hb
    have htl : dictGet tl k = none := by
      simpa [dictGet, hne] using hb
    have hstep : dictMerge a ((k1, v1) :: tl) = dictMerge (dictSet a k1 v1) tl := rfl
    rw [hstep, ih _ htl, dictGet_dictSet]
    simp [hne]

theorem dictGet_merge_some {K V : Type} [DecidableEq K]
    (b a : List (K × V)) (k : K) (v : V)
    (hnodup : (b.map Prod.fst).Nodup) (hb : dictGet b k = some v) :
    dictGet (dictMerge a b) k = some v := by
  induction b generalizing a with
  | nil => simp [dictGet] at hb
  | cons hd tl ih =>
    obtain ⟨k1, v1⟩ := hd
    have hstep : dictMerge a ((k1, v1) :: tl) = dictMerge (dictSet a k1 v1) tl := rfl
    have hnd : (tl.map Prod.fst).Nodup := (List.nodup_cons.mp (by simpa using hnodup)).2
    by_cases h : k = k1
    · subst h
      have hv : v1 = v := by simpa [dictGet] using hb
      subst hv
      have hknot : k ∉ tl.map Prod.fst := (List.nodup_cons.mp (by simpa using hnodup)).1
      have htl : dictGet tl k = none := dictGet_eq_none_of_not_mem tl k hknot
      rw [hstep, dictGet_merge_none _ _ _ htl, dictGet_dictSet]
      simp
    · have htl : dictGet tl k = some v := by simpa [dictGet, h] using hb
      rw [hstep]
      exact ih _ hnd htl

theorem dictGet_merge_eq_oElse {K V : Type} [DecidableEq K]
    (b a : List (K × V)) (k : K) (hnodup : (b.map Prod.fst).Nodup) :
    dictGet (dictMerge a b) k = oElse (dictGet b k) (dictGet a k) := by
  cases hb : dictGet b k with
  | none => rw [dictGet_merge_none _ _ _ hb]; rfl
  | some v => rw [dictGet_merge_some _ _ _ _ hnodup hb]; rfl

theorem mem_dictKeys_dictSet {K V : Type} [DecidableEq K]
    (d : List (K × V)) (k k2 : K) (v : V) :
    k2 ∈ dictKeys (dictSet d k v) ↔ k2 = k ∨ k2 ∈ dictKeys d := by
  induction d with
  | nil => simp [dictSet, dictKeys]
  | cons hd tl ih =>
    obtain ⟨k1, v1⟩ := hd
    by_cases h : k = k1
    · subst h
      have hset : dictSet ((k, v1) :: tl) k v = (k, v) :: tl := by simp [dictSet]
      rw [hset]
      simp only [dictKeys, List.map_cons, List.mem_cons]
      tauto
    · have hset : dictSet ((k1, v1) :: tl) k v = (k1, v1) :: dictSet tl k v := by
        simp [dictSet, h]
      rw [hset]
      simp only [dictKeys, List.map_cons, List.mem_cons]
      have ih2 := ih
      simp only [dictKeys] at ih2
      rw [ih2]
      tauto

theorem dictKeys_dictSet_of_get_some {K V : Type} [DecidableEq K]
    (d : List (K × V)) (k : K) (v v0 : V) (h : dictGet d k = some v0) :
    dictKeys (dictSet d k v) = dictKeys d := by
  induction d with
  | nil => simp [dictGet] at h
  | cons hd tl ih =>
    obtain ⟨k1, v1⟩ := hd
    by_cases h1 : k = k1
    · subst h1; simp [dictSet, dictKeys]
    · have htl : dictGet tl k = some v0 := by simpa [dictGet, h1] using h
      have hset : dictSet ((k1, v1) :: tl) k v = (k1, v1) :: dictSet tl k v := by
        simp [dictSet, h1]
      rw [hset]
      simp only [dictKeys, List.map_cons, List.cons.injEq, true_and]
      have ih2 := ih htl
      simpa [dictKeys] using ih2

theorem dictGet_some_mem {K V : Type} [DecidableEq K]
    (d : List (K × V)) (k : K) (v : V) (h : dictGet d k = some v) :
    (k, v) ∈ d := by
  induction d with
  | nil => simp [dictGet] at h
  | cons hd tl ih =>
    obtain ⟨k1, v1⟩ := hd
    by_cases h1 : k = k1
    · subst h1
      have : v1 = v := by simpa [dictGet] using h
      simp [this]
    · have := ih (by simpa [dictGet, h1] using h)
      simp [this]

theorem nodupKeys_dictSet {K V : Type} [DecidableEq K]
    (d : List (K × V)) (k : K) (v : V) (h : (d.map Prod.fst).Nodup) :
    ((dictSet d k v).map Prod.fst).Nodup := by
  induction d with
  | nil => simp [dictSet]
  | cons hd tl ih =>
    obtain ⟨k1, v1⟩ := hd
    simp only [List.map_cons] at h
    rcases List.nodup_cons.mp h with ⟨h1, h2⟩
    by_cases he : k = k1
    · subst he
      have hset : dictSet ((k, v1) :: tl) k v = (k, v) :: tl := by simp [dictSet]
      rw [hset]
      simpa using List.nodup_cons.mpr ⟨h1, h2⟩
    · have hset : dictSet ((k1, v1) :: tl) k v = (k1, v1) :: dictSet tl k v := by
        simp [dictSet, he]
      rw [hset]
      simp only [List.map_cons]
      refine List.nodup_cons.mpr ⟨?_, ih h2⟩
      intro hmem
      have := (mem_dictKeys_dictSet tl k k1 v).mp (by simpa [dictKeys] using hmem)
      rcases this with h3 | h3
      · exact he h3.symm
      · exact h1 (by simpa [dictKeys] using h3)

theorem nodupKeys_dictMerge {K V : Type} [DecidableEq K]
    (b a : List (K × V)) (h : (a.map Prod.fst).Nodup) :
    ((dictMerge a b).map Prod.fst).Nodup := by
  induction b generalizing a with
  | nil => exact h
  | cons hd tl ih =>
    have hstep : dictMerge a (hd :: tl) = dictMerge (dictSet a hd.1 hd.2) tl := rfl
    rw [hstep]
    exact ih _ (nodupKeys_dictSet _ _ _ h)

theorem nodupKeys_mkDict {K V : Type} [DecidableEq K] (l : List (K × V)) :
    ((mkDict l).map Prod.fst).Nodup :=
  nodupKeys_dictMerge l [] (by simp)

/-! Player records (source `parse_bbref_row`, `parse_player_stats`).
A player key is the 3-tuple (bb_ref_id, team, year); a record is a dict
of stat-name to coerced value. -/

/-- Identity key (bb_ref_id, team, year). -/
abbrev PlayerKey := String × String × String

abbrev PlayerStats := List (String × Value)

abbrev StatDict := List (PlayerKey × PlayerStats)

/-- Pseudo-columns stripped when parsing a player row. -/
def ignoreStats : List String := ["bpm-dum", "ws-dum", "DUMMY"]

/-- Normalize a data-stat attribute name: dashes become underscores. -/
def normStat (s : String) : String :=
  String.mk (s.toList.map (fun c => if c = '-' then '_' else c))

/-- One player table row after HTML extraction: every td cell as its
data-stat attribute paired with its text content, together with the
display name and team recovered from nested markup and the canonical
player id carried by the data-append-csv attribute of the first td. -/
structure BBRefRow where
  cells : List (String × String)
  displayName : String
  displayTeam : String
  bbRefId : String

/-- The stat dict built from the td cells of a row: keep cells with a
nonempty attribute not in the ignore list, normalize the name and
coerce the content with `tryint`. -/
def rowStats (row : BBRefRow) : PlayerStats :=
  mkDict ((row.cells.filter (fun c => decide (c.1 ≠ "" ∧ c.1 ∉ ignoreStats))).map
    (fun c => (normStat c.1, tryint c.2)))

/-- The full stats dict of one row: the cell stats with name, team,
bb_ref_id and year written on top, in source order. -/
def bbrefRowStats (row : BBRefRow) (year : String) : PlayerStats :=
  dictSet (dictSet (dictSet (dictSet (rowStats row)
    "name" (.str row.displayName))
    "team" (.str row.displayTeam))
    "bb_ref_id" (.str row.bbRefId))
    "year" (.str year)

/-- Source `parse_bbref_row`: insert the row under its key when absent,
otherwise merge the existing record with the new stats, the new stats
winning on key collisions. -/
def parse_bbref_row (players : StatDict) (row : BBRefRow) (year : String) : StatDict :=
  let stats := bbrefRowStats row year
  let key : PlayerKey := (row.bbRefId, row.displayTeam, year)
  match dictGet players key with
  | none => dictSet players key stats
  | some old => dictSet players key (dictMerge old stats)

/-- The five player pages processed per season, in source order. -/
def playerPages : List String := ["totals", "advanced", "per_minute", "per_poss", "per_game"]

/-- Path of the cached team page of a season. -/
def teamsPath (year : String) : String := "data/" ++ year ++ "/teams.html"

/-- Path of a cached player page of a season. -/
def playerPath (year page : String) : String := "data/" ++ year ++ "/" ++ page ++ ".html"

/-- Processing of one player page: open the cached file with no
existence check (a missing file raises `FileNotFoundError`) and fold
every table row into the player dict.  The filesystem is a map from
path to parsed rows. -/
def playerPageStep (fs : String → Option (List BBRefRow)) (year : String)
    (players : StatDict) (page : String) : Except String StatDict :=
  match fs (playerPath year page) with
  | none => .error ("FileNotFoundError: " ++ playerPath year page)
  | some rows => .ok (rows.foldl (fun ps r => parse_bbref_row ps r year) players)

/-- Source `parse_player_stats`: the five player pages of a season
processed in order into one dict. -/
def parse_player_stats (fs : String → Option (List BBRefRow)) (year : String) :
    Except String StatDict :=
  playerPages.foldlM (playerPageStep fs year) ([] : StatDict)

/-! Team records (source `parse_team_stats`). -/

/-- One team table row after HTML extraction: the short code recovered
by the teams/<code>/ regex, the display name, and the stat dict of the
td cells. -/
structure TeamRow where
  shortname : String
  name : String
  stats : List (String × Value)

/-- One totals-table row entered into the team dict: the row keyed by
its short code, with name and shortname written into the stats. -/
def teamPage1Step (d : List (String × List (String × Value))) (r : TeamRow) :
    List (String × List (String × Value)) :=
  dictSet d r.shortname
    (dictSet (dictSet r.stats "name" (.str r.name)) "shortname" (.str r.shortname))

/-- The dict built from the totals table. -/
def teamPage1Dict (page1 : List TeamRow) : List (String × List (String × Value)) :=
  page1.foldl teamPage1Step []

/-- One advanced-table row merged into the team dict: a short code
already present is overwritten field-wise by the advanced stats; an
unknown short code is logged and dropped. -/
def teamMergeStep (d : List (String × List (String × Value))) (r : TeamRow) :
    List (String × List (String × Value)) :=
  match dictGet d r.shortname with
  | some old => dictSet d r.shortname (dictMerge old r.stats)
  | none => d

/-- Merge the advanced table into the totals dict row by row. -/
def teamMergePage2 (d : List (String × List (String × Value)))
    (page2 : List TeamRow) : List (String × List (String × Value)) :=
  page2.foldl teamMergeStep d

/-- The merged per-season team dict. -/
def teamDataDict (page1 page2 : List TeamRow) : List (String × List (String × Value)) :=
  teamMergePage2 (teamPage1Dict page1) page2

/-- Final list returned by the parser: each merged record stamped with
the season year. -/
def mergeTeamPages (page1 page2 : List TeamRow) (year : String) :
    List (List (String × Value)) :=
  (teamDataDict page1 page2).map (fun kv => dictSet kv.2 "year" (.str year))

/-- Parsed content of a cached teams.html file: the totals table rows
and the advanced table rows. -/
structure TeamsPage where
  totals : List TeamRow
  advanced : List TeamRow

/-- Source `parse_team_stats`: when the cached teams.html of the season
is absent the parser logs and returns an empty collection, otherwise it
parses and merges the two tables. -/
def parse_team_stats (fs : String → Option TeamsPage) (year : String) :
    List (List (String × Value)) :=
  match fs (teamsPath year) with
  | none => []
  | some page => mergeTeamPages page.totals page.advanced year

/-! Rating merge (source `parse_raptor_stats`). -/

/-- CSV columns excluded from the per-row stat merge. -/
def raptorMetaKeys : List String :=
  ["player_name", "player_id", "team", "season", "season_type"]

/-- One row of a RAPTOR CSV file: the five identity columns and the
remaining columns as raw strings. -/
structure RaptorRow where
  player_id : String
  season : String
  team : String
  season_type : String
  extra : List (String × String)

/-- Exception raised while merging rating rows: the missing identity
triple, or the `ValueError` from `int()` on a bad season string. -/
inductive RaptorError where
  | missingIdentity (pid team season : String)
  | valueError
deriving DecidableEq, Repr

/-- The inner per-column loop of `parse_raptor_stats`: for each non-meta
column, abort when the identity is absent from the data, keep an already
present field, otherwise fill the field with the coerced value. -/
def raptorLoop (key3 : PlayerKey) : StatDict → List (String × String) →
    Except RaptorError StatDict
  | data, [] => .ok data
  | data, (k, v) :: rest =>
    match dictGet data key3 with
    | none => .error (.missingIdentity key3.1 key3.2.1 key3.2.2)
    | some st =>
      if (dictGet st k).isSome then raptorLoop key3 data rest
      else raptorLoop key3 (dictSet data key3 (dictSet st k (tryint v))) rest

/-- Source `parse_raptor_stats`, one row: skip non-regular-season rows
and rows outside the requested years, resolve the team alias, then run
the per-column merge loop keyed by (player_id, resolved team, season). -/
def processRaptorRow (years : List String) (data : StatDict) (row : RaptorRow) :
    Except RaptorError StatDict :=
  if row.season_type ≠ "RS" then .ok data
  else if row.season ∉ years then .ok data
  else
    match fix_team row.team row.season with
    | none => .error .valueError
    | some team =>
      raptorLoop (row.player_id, team, row.season) data
        (row.extra.filter (fun kv => decide (kv.1 ∉ raptorMetaKeys)))

/-- Source `parse_raptor_stats` over a whole file: rows processed in
order, the first raised exception aborting the run. -/
def parse_raptor_stats (years : List String) (data : StatDict)
    (rows : List RaptorRow) : Except RaptorError StatDict :=
  rows.foldlM (processRaptorRow years) data

/-! Fetcher (source `save`). The network is a map from the index of the
request to the response; index 0 is the initial request, index n the
n-th retry.  The trace records every request with the headers it was
sent with, and every sleep with its duration. -/

/-- An HTTP response: status code and body text. -/
structure Response where
  status : Nat
  text : String

/-- The realistic browser header set sent with the initial request. -/
def browserHeaders : List (String × String) :=
  [("User-Agent",
    "Mozilla/5.0 (Macintosh; Intel Mac OS X 10.15; rv:106.0) Gecko/20100101 Firefox/106.0"),
   ("Accept",
    "text/html,application/xhtml+xml,application/xml;q=0.9,image/avif,image/webp,*/*;q=0.8"),
   ("Accept-Language", "en-US,en;q=0.5"),
   ("Connection", "keep-alive"),
   ("Upgrade-Insecure-Requests", "1"),
   ("Sec-Fetch-Dest", "document"),
   ("Sec-Fetch-Mode", "navigate"),
   ("Sec-Fetch-Site", "cross-site"),
   ("Pragma", "no-cache"),
   ("Cache-Control", "no-cache")]

/-- Observable side effects of `save`: an HTTP request sent with a given
header list, or a sleep of a given number of seconds. -/
inductive FetchEvent where
  | request (headers : List (String × String))
  | slept (secs : Nat)
deriving DecidableEq, Repr

/-- The fatal error raised after the retry ceiling: it carries the last
response body, the URL and the destination filename. -/
structure SaveError where
  body : String
  url : String
  fname : String
deriving DecidableEq, Repr

/-- The retry loop of `save`: while the status is not 200, re-request
the URL with no headers, double the sleep, sleep, and raise once the
retry counter exceeds 6.  On status 200 the body is written out. -/
def saveLoop (responses : Nat → Response) (url fname : String)
    (res : Response) (sleeps retries : Nat) :
    List FetchEvent × Except SaveError String :=
  if res.status ≠ 200 then
    let res2 := responses (retries + 1)
    let sleeps2 := sleeps * 2
    if h : retries + 1 > 6 then
      ([.request [], .slept sleeps2], .error ⟨res2.text, url, fname⟩)
    else
      let rest := saveLoop responses url fname res2 sleeps2 (retries + 1)
      (.request [] :: .slept sleeps2 :: rest.1, rest.2)
  else ([], .ok res.text)
termination_by 7 - retries
decreasing_by omega

/-- Source `save`: the initial request is sent with the browser headers,
followed by a one second sleep and the retry loop. -/
def save (responses : Nat → Response) (url fname : String) :
    List FetchEvent × Except SaveError String :=
  let rest := saveLoop responses url fname (responses 0) 1 0
  (.request browserHeaders :: .slept 1 :: rest.1, rest.2)

/-- A network that always answers 500. -/
def alwaysFail : Nat → Response := fun _ => ⟨500, "server error"⟩

/-- Count the retry requests (those sent without headers) in a trace. -/
def countRetryRequests (evs : List FetchEvent) : Nat :=
  evs.countP (fun e => decide (e = FetchEvent.request []))

/-! Exporter post-processing (source `process_data`, column loop). -/

/-- Pandas column dtypes relevant to the export step. -/
inductive Dtype where
  | int64
  | int32
  | float64
  | object
deriving DecidableEq, Repr

/-- One column of the final team table. -/
structure Column where
  name : String
  cells : List Value
  dtype : Dtype

/-- Python `isinstance(elt, (float, int))` on a parsed cell. -/
def isNumericCell : Value → Bool
  | .int _ => true
  | .float _ => true
  | .str _ => false

/-- Pandas `replace("", 0.0)`: every empty-string cell becomes 0.0. -/
def replaceEmptyWithZero (cells : List Value) : List Value :=
  cells.map (fun v => if v = .str "" then .float (.finite 0) else v)

/-- Wrap an integer into the signed 32-bit range, as `astype("int32")`
does. -/
def int32Wrap (n : Int) : Int := (n + 2 ^ 31) % 2 ^ 32 - 2 ^ 31

/-- Cast one cell for the int64-to-int32 narrowing. -/
def castInt32 (v : Value) : Value :=
  match v with
  | .int n => .int (int32Wrap n)
  | v => v

/-- The per-column loop of `process_data`: when any of the first 20
cells is numeric, replace empty strings with zero; then narrow an int64
column to int32. -/
def processColumn (c : Column) : Column :=
  let cells1 := if (c.cells.take 20).any isNumericCell then replaceEmptyWithZero c.cells
    else c.cells
  if c.dtype = .int64 then ⟨c.name, cells1.map castInt32, .int32⟩
  else ⟨c.name, cells1, c.dtype⟩

/-- The column loop applied to every column of the final table. -/
def processTable (t : List Column) : List Column := t.map processColumn

/-! Derived lookups and concrete fixture rows used by the theorems. -/

/-- Field lookup inside a player record. -/
def playerField (players : StatDict) (key : PlayerKey) (f : String) : Option Value :=
  match dictGet players key with
  | some st => dictGet st f
  | none => none

/-- Fixture: a totals-page row for one player. -/
def fixRowA : BBRefRow := ⟨[("pts", "10")], "A Player", "BOS", "a01"⟩

/-- Fixture: a second-page row for the same identity with a conflicting
pts value and a new ast field. -/
def fixRowB : BBRefRow := ⟨[("pts", "20"), ("ast", "5")], "A Player", "BOS", "a01"⟩

/-! Theorems. -/

/-- C6: the coercion `tryint` is three-tier: a string accepted by the
integer conversion yields that integer; otherwise a string accepted by
the float conversion yields that float rounded to four decimal places;
any other string is returned unchanged. -/
theorem tryint_three_tier (s : String) :
    (∀ n : Int, pyParseInt s = some n → tryint s = .int n) ∧
    (pyParseInt s = none → ∀ f : PyNum, pyParseFloat s = some f →
      tryint s = .float (pyRound4 f)) ∧
    (pyParseInt s = none → pyParseFloat s = none → tryint s = .str s) := by
  refine ⟨?_, ?_, ?_⟩
  · intro n h; simp [tryint, h]
  · intro h f hf; simp [tryint, h, hf]
  · intro h hf; simp [tryint, h, hf]

/-- C6 witness: the three tiers at concrete inputs. -/
theorem tryint_three_tier_w :
    tryint "12" = .int 12 ∧
    tryint "2.5" = .float (pyRound4 (.finite (5 / 2))) ∧
    tryint "abc" = .str "abc" :=
  ⟨(tryint_three_tier "12").1 12 (by decide),
   (tryint_three_tier "2.5").2.1 (by decide) (.finite (5 / 2))
     (by with_unfolding_all rfl),
   (tryint_three_tier "abc").2.2 (by decide) (by decide)⟩

/-- Helper: once the season string converts to an integer, the source
`fix_team` coincides with the alias rule on that integer. -/
theorem fix_team_eq_int (team season : String) (y : Int)
    (h : pyParseInt season = some y) :
    fix_team team season = some (fix_team_int team y) := by
  by_cases hc : team = "CHA"
  · subst hc; simp [fix_team, fix_team_int, h]
  · simp [fix_team, fix_team_int, hc]

/-- C7: the alias function resolves (CHA, year) to CHO exactly when the
integer season year exceeds 2014, keeps CHA otherwise, and leaves every
other team code unchanged. -/
theorem fix_team_alias_rule (team year : String) (y : Int)
    (hy : pyParseInt year = some y) :
    (fix_team "CHA" year = some "CHO" ↔ y > 2014) ∧
    (y ≤ 2014 → fix_team "CHA" year = some "CHA") ∧
    (team ≠ "CHA" → fix_team team year = some team) := by
  have hcha : fix_team "CHA" year = some (if y > 2014 then "CHO" else "CHA") := by
    simp [fix_team, hy]
  refine ⟨?_, ?_, ?_⟩
  · rw [hcha]
    by_cases h : y > 2014
    · simp [h]
    · simp only [if_neg h]
      constructor
      · intro he
        exact absurd (Option.some.inj he) (by decide)
      · intro hgt; exact absurd hgt h
  · intro hle
    rw [hcha, if_neg (by omega : ¬ y > 2014)]
  · intro hne; simp [fix_team, hne]

/-- C7 witness: the rule at concrete inputs. -/
theorem fix_team_alias_rule_w :
    fix_team "CHA" "2015" = some "CHO" ∧ fix_team "CHA" "2014" = some "CHA" ∧
    fix_team "LAL" "2015" = some "LAL" :=
  ⟨(fix_team_alias_rule "CHA" "2015" 2015 (by decide)).1.mpr (by omega),
   (fix_team_alias_rule "CHA" "2014" 2014 (by decide)).2.1 (by omega),
   (fix_team_alias_rule "LAL" "2015" 2015 (by decide)).2.2 (by decide)⟩

/-- C1 counterexample: the same identity parsed from two sources with a
conflicting pts field keeps the second source's value 20, not the first
source's value 10, so the merge is not first-write-wins. -/
theorem player_merge_first_write_cex :
    playerField (parse_bbref_row (parse_bbref_row [] fixRowA "2020") fixRowB "2020")
      ("a01", "BOS", "2020") "pts" = some (.int 20) ∧
    ¬ playerField (parse_bbref_row (parse_bbref_row [] fixRowA "2020") fixRowB "2020")
      ("a01", "BOS", "2020") "pts" = some (.int 10) := by
  constructor <;> decide

/-- C1 amended: player merge precedence is last-write-wins at the field
level: when an identity already present is parsed again, each field of
the merged record takes the new source's value when the new source has
the field, and keeps the old value only for fields the new source
lacks. -/
theorem parse_bbref_row_later_source_wins
    (players : StatDict) (row : BBRefRow) (year : String)
    (old : PlayerStats) (f : String)
    (hold : dictGet players (row.bbRefId, row.displayTeam, year) = some old) :
    playerField (parse_bbref_row players row year) (row.bbRefId, row.displayTeam, year) f
      = oElse (dictGet (bbrefRowStats row year) f) (dictGet old f) := by
  have hnd : ((bbrefRowStats row year).map Prod.fst).Nodup := by
    unfold bbrefRowStats
    exact nodupKeys_dictSet _ _ _ (nodupKeys_dictSet _ _ _ (nodupKeys_dictSet _ _ _
      (nodupKeys_dictSet _ _ _ (nodupKeys_mkDict _))))
  have hset := dictGet_dictSet players (row.bbRefId, row.displayTeam, year)
      (row.bbRefId, row.displayTeam, year) (dictMerge old (bbrefRowStats row year))
  rw [if_pos rfl] at hset
  simp only [parse_bbref_row, playerField, hold, hset]
  exact dictGet_merge_eq_oElse _ _ _ hnd

/-- C1 amended witness: the merge at the fixture rows. -/
theorem parse_bbref_row_later_source_wins_w :
    playerField (parse_bbref_row (parse_bbref_row [] fixRowA "2020") fixRowB "2020")
        ("a01", "BOS", "2020") "ast"
      = oElse (dictGet (bbrefRowStats fixRowB "2020") "ast")
          (dictGet (bbrefRowStats fixRowA "2020") "ast") :=
  parse_bbref_row_later_source_wins (parse_bbref_row [] fixRowA "2020") fixRowB "2020"
    (bbrefRowStats fixRowA "2020") "ast" (by decide)

/-- Helper: merging page-2 rows preserves a field value already equal
to the page-2 value for that short code. -/
theorem teamMergePage2_keeps_field (s f : String) (v2 : Value)
    (page2 : List TeamRow)
    (hall : ∀ r ∈ page2, r.shortname = s →
      dictGet r.stats f = some v2 ∧ (r.stats.map Prod.fst).Nodup) :
    ∀ d st0, dictGet d s = some st0 → dictGet st0 f = some v2 →
      ∃ st, dictGet (teamMergePage2 d page2) s = some st ∧ dictGet st f = some v2 := by
  induction page2 with
  | nil => intro d st0 hd hf; exact ⟨st0, hd, hf⟩
  | cons r rest ih =>
    intro d st0 hd hf
    have hall2 : ∀ r2 ∈ rest, r2.shortname = s →
        dictGet r2.stats f = some v2 ∧ (r2.stats.map Prod.fst).Nodup :=
      fun r2 hm => hall r2 (List.mem_cons_of_mem _ hm)
    have hstep : teamMergePage2 d (r :: rest) = teamMergePage2 (teamMergeStep d r) rest := rfl
    rw [hstep]
    by_cases hs : r.shortname = s
    · obtain ⟨hrf, hrnd⟩ := hall r (List.mem_cons_self _ _) hs
      have hget : dictGet d r.shortname = some st0 := by rw [hs]; exact hd
      have hset : teamMergeStep d r = dictSet d r.shortname (dictMerge st0 r.stats) := by
        simp [teamMergeStep, hget]
      rw [hset]
      have hd2 : dictGet (dictSet d r.shortname (dictMerge st0 r.stats)) s
          = some (dictMerge st0 r.stats) := by
        rw [dictGet_dictSet, if_pos hs.symm]
      exact ih hall2 _ _ hd2 (dictGet_merge_some _ _ _ _ hrnd hrf)
    · have hne : ¬ s = r.shortname := fun he => hs he.symm
      cases hro : dictGet d r.shortname with
      | none =>
        have hset : teamMergeStep d r = d := by simp [teamMergeStep, hro]
        rw [hset]
        exact ih hall2 _ _ hd hf
      | some old =>
        have hset : teamMergeStep d r = dictSet d r.shortname (dictMerge old r.stats) := by
          simp [teamMergeStep, hro]
        rw [hset]
        have hd2 : dictGet (dictSet d r.shortname (dictMerge old r.stats)) s = some st0 := by
          rw [dictGet_dictSet, if_neg hne]; exact hd
        exact ih hall2 _ _ hd2 hf

/-- Helper: once some page-2 row carries the short code, the merged
record takes the page-2 value of the field. -/
theorem teamMergePage2_sets_field (s f : String) (v2 : Value)
    (page2 : List TeamRow)
    (hall : ∀ r ∈ page2, r.shortname = s →
      dictGet r.stats f = some v2 ∧ (r.stats.map Prod.fst).Nodup) :
    ∀ d st0, dictGet d s = some st0 → (∃ r ∈ page2, r.shortname = s) →
      ∃ st, dictGet (teamMergePage2 d page2) s = some st ∧ dictGet st f = some v2 := by
  induction page2 with
  | nil =>
    rintro d st0 hd ⟨r, hm, hr⟩
    exact absurd hm (List.not_mem_nil _)
  | cons r rest ih =>
    rintro d st0 hd hex
    have hall2 : ∀ r2 ∈ rest, r2.shortname = s →
        dictGet r2.stats f = some v2 ∧ (r2.stats.map Prod.fst).Nodup :=
      fun r2 hm => hall r2 (List.mem_cons_of_mem _ hm)
    have hstep : teamMergePage2 d (r :: rest) = teamMergePage2 (teamMergeStep d r) rest := rfl
    rw [hstep]
    by_cases hs : r.shortname = s
    · obtain ⟨hrf, hrnd⟩ := hall r (List.mem_cons_self _ _) hs
      have hget : dictGet d r.shortname = some st0 := by rw [hs]; exact hd
      have hset : teamMergeStep d r = dictSet d r.shortname (dictMerge st0 r.stats) := by
        simp [teamMergeStep, hget]
      rw [hset]
      have hd2 : dictGet (dictSet d r.shortname (dictMerge st0 r.stats)) s
          = some (dictMerge st0 r.stats) := by
        rw [dictGet_dictSet, if_pos hs.symm]
      exact teamMergePage2_keeps_field s f v2 rest hall2 _ _ hd2
        (dictGet_merge_some _ _ _ _ hrnd hrf)
    · have hne : ¬ s = r.shortname := fun he => hs he.symm
      obtain ⟨r2, hm2, hr2⟩ := hex
      have hm2r : r2 ∈ rest := by
        rcases List.mem_cons.mp hm2 with he | hm3
        · exact absurd (he ▸ hr2) hs
        · exact hm3
      cases hro : dictGet d r.shortname with
      | none =>
        have hset : teamMergeStep d r = d := by simp [teamMergeStep, hro]
        rw [hset]
        exact ih hall2 _ _ hd ⟨r2, hm2r, hr2⟩
      | some old =>
        have hset : teamMergeStep d r = dictSet d r.shortname (dictMerge old r.stats) := by
          simp [teamMergeStep, hro]
        rw [hset]
        have hd2 : dictGet (dictSet d r.shortname (dictMerge old r.stats)) s = some st0 := by
          rw [dictGet_dictSet, if_neg hne]; exact hd
        exact ih hall2 _ _ hd2 ⟨r2, hm2r, hr2⟩

/-- C4: team merge precedence is last-write-wins at the field level:
when a short code appears in both pages and a field name overlaps, the
merged record holds the advanced page's value, and the record exported
for that team carries it as well. -/
theorem team_merge_second_page_wins
    (page1 page2 : List TeamRow) (year : String) (s f : String) (v1 v2 : Value)
    (st1 : List (String × Value))
    (h1 : dictGet (teamPage1Dict page1) s = some st1)
    (_h1f : dictGet st1 f = some v1)
    (hex : ∃ r ∈ page2, r.shortname = s)
    (hall : ∀ r ∈ page2, r.shortname = s →
      dictGet r.stats f = some v2 ∧ (r.stats.map Prod.fst).Nodup)
    (hfy : f ≠ "year") :
    (∃ st, dictGet (teamDataDict page1 page2) s = some st ∧ dictGet st f = some v2) ∧
    ∃ out ∈ mergeTeamPages page1 page2 year, dictGet out f = some v2 := by
  obtain ⟨st, hst, hstf⟩ := teamMergePage2_sets_field s f v2 page2 hall _ st1 h1 hex
  refine ⟨⟨st, hst, hstf⟩, ⟨dictSet st "year" (.str year), ?_, ?_⟩⟩
  · unfold mergeTeamPages
    exact List.mem_map_of_mem _ (dictGet_some_mem _ _ _ hst)
  · rw [dictGet_dictSet, if_neg hfy]
    exact hstf

/-- Fixture: a totals-page team row. -/
def fixTeamRow1 : TeamRow := ⟨"MIA", "Miami Heat", [("pts", .int 1)]⟩

/-- Fixture: an advanced-page row for the same team with a conflicting
pts value. -/
def fixTeamRow2 : TeamRow := ⟨"MIA", "Miami Heat", [("pts", .int 2)]⟩

/-- C4 witness: the overlap at the fixture rows resolves to the
advanced page's value. -/
theorem team_merge_second_page_wins_w :
    (∃ st, dictGet (teamDataDict [fixTeamRow1] [fixTeamRow2]) "MIA" = some st ∧
      dictGet st "pts" = some (Value.int 2)) ∧
    ∃ out ∈ mergeTeamPages [fixTeamRow1] [fixTeamRow2] "2020",
      dictGet out "pts" = some (Value.int 2) :=
  team_merge_second_page_wins [fixTeamRow1] [fixTeamRow2] "2020" "MIA" "pts"
    (Value.int 1) (Value.int 2)
    [("pts", Value.int 1), ("name", Value.str "Miami Heat"),
     ("shortname", Value.str "MIA")]
    (by decide) (by decide) ⟨fixTeamRow2, List.mem_cons_self _ _, rfl⟩
    (by decide) (by decide)

/-- Helper: one merge step of the advanced page never changes the key
list of the team dict. -/
theorem dictKeys_teamMergeStep (d : List (String × List (String × Value)))
    (r : TeamRow) : dictKeys (teamMergeStep d r) = dictKeys d := by
  cases hro : dictGet d r.shortname with
  | none => simp [teamMergeStep, hro]
  | some old =>
    have hset : teamMergeStep d r = dictSet d r.shortname (dictMerge old r.stats) := by
      simp [teamMergeStep, hro]
    rw [hset]
    exact dictKeys_dictSet_of_get_some _ _ _ _ hro

/-- Helper: the advanced-page pass never changes the key list. -/
theorem dictKeys_teamMergePage2 (page2 : List TeamRow) :
    ∀ d, dictKeys (teamMergePage2 d page2) = dictKeys d := by
  induction page2 with
  | nil => intro d; rfl
  | cons r rest ih =>
    intro d
    have hstep : teamMergePage2 d (r :: rest) = teamMergePage2 (teamMergeStep d r) rest := rfl
    rw [hstep, ih, dictKeys_teamMergeStep]

/-- Helper: the totals-page dict holds exactly the short codes of the
totals rows. -/
theorem mem_dictKeys_teamPage1 (page1 : List TeamRow) :
    ∀ d s, (s ∈ dictKeys (page1.foldl teamPage1Step d) ↔
      s ∈ dictKeys d ∨ s ∈ page1.map TeamRow.shortname) := by
  induction page1 with
  | nil => intro d s; simp
  | cons r rest ih =>
    intro d s
    rw [List.foldl_cons]
    have hstep : teamPage1Step d r = dictSet d r.shortname
        (dictSet (dictSet r.stats "name" (.str r.name)) "shortname" (.str r.shortname)) := rfl
    rw [ih, hstep, mem_dictKeys_dictSet]
    simp only [List.map_cons, List.mem_cons]
    tauto

/-- C5: a team present only in the advanced page is dropped, never
added: the merged team dict has exactly the key list of the totals-page
dict, and a short code is a key exactly when some totals row carries
it. -/
theorem team_merge_drops_page2_only_teams (page1 page2 : List TeamRow) :
    dictKeys (teamDataDict page1 page2) = dictKeys (teamPage1Dict page1) ∧
    ∀ s, (s ∈ dictKeys (teamDataDict page1 page2) ↔ s ∈ page1.map TeamRow.shortname) := by
  constructor
  · exact dictKeys_teamMergePage2 page2 (teamPage1Dict page1)
  · intro s
    rw [teamDataDict, dictKeys_teamMergePage2 page2 (teamPage1Dict page1)]
    have := mem_dictKeys_teamPage1 page1 [] s
    rw [teamPage1Dict, this]
    simp [dictKeys]

/-- C3: a regular-season rating row of a requested season whose derived
identity (player_id, alias-resolved team, season) is absent from the
merged player dict makes `parse_raptor_stats` raise the exception naming
the missing triple, aborting the whole run; the row is not skipped. -/
theorem raptor_missing_identity_fatal
    (data : StatDict) (years : List String) (row : RaptorRow) (y : Int)
    (hRS : row.season_type = "RS") (hy : row.season ∈ years)
    (hparse : pyParseInt row.season = some y)
    (habsent : dictGet data (row.player_id, fix_team_int row.team y, row.season) = none)
    (hkey : ∃ kv ∈ row.extra, kv.1 ∉ raptorMetaKeys) :
    processRaptorRow years data row =
      .error (.missingIdentity row.player_id (fix_team_int row.team y) row.season) ∧
    ∀ rest, parse_raptor_stats years data (row :: rest) =
      .error (.missingIdentity row.player_id (fix_team_int row.team y) row.season) := by
  have hfix := fix_team_eq_int row.team row.season y hparse
  have hne : row.extra.filter (fun kv => decide (kv.1 ∉ raptorMetaKeys)) ≠ [] := by
    obtain ⟨kv, hm, hp⟩ := hkey
    intro hnil
    have hmem : kv ∈ row.extra.filter (fun kv => decide (kv.1 ∉ raptorMetaKeys)) :=
      List.mem_filter.mpr ⟨hm, by simpa using hp⟩
    rw [hnil] at hmem
    exact absurd hmem (List.not_mem_nil _)
  obtain ⟨c, t, hct⟩ := List.exists_cons_of_ne_nil hne
  have hrow : processRaptorRow years data row =
      .error (.missingIdentity row.player_id (fix_team_int row.team y) row.season) := by
    simp only [processRaptorRow, hRS, hfix]
    rw [if_neg (by simp), if_neg (by simpa using hy), hct]
    obtain ⟨k, v⟩ := c
    simp [raptorLoop, habsent]
  refine ⟨hrow, fun rest => ?_⟩
  simp only [parse_raptor_stats, List.foldlM_cons, hrow]
  rfl

/-- Fixture: a modern RAPTOR regular-season row. -/
def fixRaptorRow : RaptorRow := ⟨"p1", "2020", "CHA", "RS", [("raptor_total", "1.5")]⟩

/-- C3 witness: the fixture row aborts an empty player dict. -/
theorem raptor_missing_identity_fatal_w :
    processRaptorRow ["2020"] [] fixRaptorRow =
      .error (.missingIdentity "p1" "CHO" "2020") ∧
    parse_raptor_stats ["2020"] [] [fixRaptorRow] =
      .error (.missingIdentity "p1" "CHO" "2020") :=
  ⟨(raptor_missing_identity_fatal [] ["2020"] fixRaptorRow 2020 rfl (by decide)
      (by decide) (by decide) ⟨("raptor_total", "1.5"), by decide, by decide⟩).1,
   (raptor_missing_identity_fatal [] ["2020"] fixRaptorRow 2020 rfl (by decide)
      (by decide) (by decide) ⟨("raptor_total", "1.5"), by decide, by decide⟩).2 []⟩

/-- Helper: a missing player page anywhere in the page list makes the
fold raise the file-not-found error. -/
theorem playerPages_fold_error (fs : String → Option (List BBRefRow)) (year : String) :
    ∀ (pages : List String) (acc : StatDict) (page : String), page ∈ pages →
      fs (playerPath year page) = none →
      ∃ msg, pages.foldlM (playerPageStep fs year) acc = .error msg := by
  intro pages
  induction pages with
  | nil => intro acc page hm; exact absurd hm (List.not_mem_nil _)
  | cons p rest ih =>
    intro acc page hm hnone
    rw [List.foldlM_cons]
    cases hfs : fs (playerPath year p) with
    | none =>
      refine ⟨"FileNotFoundError: " ++ playerPath year p, ?_⟩
      simp [playerPageStep, hfs]
      rfl
    | some rows =>
      rcases List.mem_cons.mp hm with he | hm2
      · subst he; rw [hfs] at hnone; cases hnone
      · obtain ⟨msg, hmsg⟩ := ih _ page hm2 hnone
        refine ⟨msg, ?_⟩
        simp [playerPageStep, hfs]
        exact hmsg

/-- C8: the two parsers treat a missing cached file asymmetrically: a
missing teams.html makes `parse_team_stats` return an empty collection,
while a missing player page makes `parse_player_stats` raise an
unhandled file-not-found error. -/
theorem missing_file_asymmetry (fsT : String → Option TeamsPage)
    (fsP : String → Option (List BBRefRow)) (year : String) :
    (fsT (teamsPath year) = none → parse_team_stats fsT year = []) ∧
    (∀ page ∈ playerPages, fsP (playerPath year page) = none →
      ∃ msg, parse_player_stats fsP year = .error msg) := by
  constructor
  · intro h; simp [parse_team_stats, h]
  · intro page hm hnone
    exact playerPages_fold_error fsP year playerPages [] page hm hnone

/-- C8 witness: both behaviours on an empty filesystem. -/
theorem missing_file_asymmetry_w :
    parse_team_stats (fun _ => none) "2020" = [] ∧
    ∃ msg, parse_player_stats (fun _ => (none : Option (List BBRefRow))) "2020" =
      .error msg :=
  ⟨(missing_file_asymmetry (fun _ => none) (fun _ => none) "2020").1 rfl,
   (missing_file_asymmetry (fun _ => none) (fun _ => none) "2020").2 "totals"
     (by decide) rfl⟩

/-- C9: exporter per-column post-processing: when any of the sampled
head values of a column is numeric, every empty-string cell of the
column is replaced by zero; and an int64 column is narrowed to int32;
the loop is applied to every column of the table. -/
theorem process_column_post (c : Column) :
    ((c.cells.take 20).any isNumericCell = true →
      ∀ i : Nat, c.cells[i]? = some (Value.str "") →
        (processColumn c).cells[i]? = some (Value.float (PyNum.finite 0))) ∧
    (c.dtype = Dtype.int64 → (processColumn c).dtype = Dtype.int32) ∧
    ∀ t : List Column, c ∈ t → processColumn c ∈ processTable t := by
  refine ⟨?_, ?_, ?_⟩
  · intro hnum i hi
    by_cases hd : c.dtype = Dtype.int64
    · simp [processColumn, hnum, hd, replaceEmptyWithZero, List.getElem?_map, hi, castInt32]
    · simp [processColumn, hnum, hd, replaceEmptyWithZero, List.getElem?_map, hi]
  · intro hd
    simp [processColumn, hd]
  · intro t hm
    exact List.mem_map_of_mem _ hm

/-- Fixture: an object column with a numeric head and an empty cell. -/
def fixCol1 : Column := ⟨"pts", [.int 5, .str ""], .object⟩

/-- Fixture: an int64 column. -/
def fixCol2 : Column := ⟨"g", [.int 1], .int64⟩

/-- C9 witness: the post-processing at the fixture columns. -/
theorem process_column_post_w :
    (processColumn fixCol1).cells[1]? = some (Value.float (PyNum.finite 0)) ∧
    (processColumn fixCol2).dtype = Dtype.int32 ∧
    processColumn fixCol1 ∈ processTable [fixCol1, fixCol2] :=
  ⟨(process_column_post fixCol1).1 (by decide) 1 (by decide),
   (process_column_post fixCol2).2.1 (by decide),
   (process_column_post fixCol1).2.2 [fixCol1, fixCol2] (List.mem_cons_self _ _)⟩

/-- Helper: under a network that never answers 200, the retry loop
issues seven headerless retries with sleeps doubling from 2, then
raises the error carrying the body of the last retry response. -/
theorem saveLoop_allFail (responses : Nat → Response) (url fname : String)
    (hfail : ∀ n, (responses n).status ≠ 200) :
    saveLoop responses url fname (responses 0) 1 0 =
      ([.request [], .slept 2, .request [], .slept 4, .request [], .slept 8,
        .request [], .slept 16, .request [], .slept 32, .request [], .slept 64,
        .request [], .slept 128],
       .error ⟨(responses 7).text, url, fname⟩) := by
  simp [saveLoop, hfail 0, hfail 1, hfail 2, hfail 3, hfail 4, hfail 5, hfail 6, hfail 7]

/-- Helper: the full trace and outcome of `save` under a network that
never answers 200. -/
theorem save_allFail (responses : Nat → Response) (url fname : String)
    (hfail : ∀ n, (responses n).status ≠ 200) :
    save responses url fname =
      ([.request browserHeaders, .slept 1,
        .request [], .slept 2, .request [], .slept 4, .request [], .slept 8,
        .request [], .slept 16, .request [], .slept 32, .request [], .slept 64,
        .request [], .slept 128],
       .error ⟨(responses 7).text, url, fname⟩) := by
  simp only [save, saveLoop_allFail responses url fname hfail]

/-- Helper: every request issued inside the retry loop carries the
empty header list. -/
theorem saveLoop_requests_headerless (responses : Nat → Response) (url fname : String) :
    ∀ (fuel retries : Nat) (res : Response) (sleeps : Nat), 7 - retries ≤ fuel →
      ∀ e ∈ (saveLoop responses url fname res sleeps retries).1,
        ∀ hs, e = FetchEvent.request hs → hs = [] := by
  intro fuel
  induction fuel with
  | zero =>
    intro retries res sleeps hle e he hs heq
    rw [saveLoop.eq_def] at he
    have h7 : retries + 1 > 6 := by omega
    by_cases hst : res.status ≠ 200
    · rw [if_pos hst, dif_pos h7] at he
      rcases (by simpa using he :
          e = FetchEvent.request [] ∨ e = FetchEvent.slept (sleeps * 2)) with h | h
      · rw [h] at heq; exact (FetchEvent.request.inj heq.symm)
      · rw [h] at heq; cases heq
    · rw [if_neg hst] at he
      simp at he
  | succ n ih =>
    intro retries res sleeps hle e he hs heq
    rw [saveLoop.eq_def] at he
    by_cases hst : res.status ≠ 200
    · rw [if_pos hst] at he
      by_cases h7 : retries + 1 > 6
      · rw [dif_pos h7] at he
        rcases (by simpa using he :
            e = FetchEvent.request [] ∨ e = FetchEvent.slept (sleeps * 2)) with h | h
        · rw [h] at heq; exact (FetchEvent.request.inj heq.symm)
        · rw [h] at heq; cases heq
      · rw [dif_neg h7] at he
        simp only [List.mem_cons] at he
        rcases he with h | h | h
        · rw [h] at heq; exact (FetchEvent.request.inj heq.symm)
        · rw [h] at heq; cases heq
        · exact ih (retries + 1) (responses (retries + 1)) (sleeps * 2) (by omega) e h hs heq
    · rw [if_neg hst] at he
      simp at he

/-- C2 counterexample: under constant non-200 responses the run does
not abort after 6 failed retries: it issues and fails a 7th retry and
only then raises. -/
theorem save_abort_after_six_cex :
    countRetryRequests (save alwaysFail "u" "f").1 = 7 ∧
    ¬ countRetryRequests (save alwaysFail "u" "f").1 = 6 := by
  rw [save_allFail alwaysFail "u" "f" (fun n => by simp [alwaysFail])]
  exact ⟨rfl, by decide⟩

/-- C2 amended: on persistent non-200 responses `save` retries with
doubling backoff (the waits are 1, 2, 4, ... seconds), and after 7
failed retries (when the retry counter exceeds 6) it aborts by raising
the fatal error carrying the last response body, the URL and the
destination filename. -/
theorem save_backoff_seven_retries (responses : Nat → Response) (url fname : String)
    (hfail : ∀ n, (responses n).status ≠ 200) :
    countRetryRequests (save responses url fname).1 = 7 ∧
    (save responses url fname).1.filterMap (fun e => match e with
      | FetchEvent.slept n => some n
      | FetchEvent.request _ => none) = [1, 2, 4, 8, 16, 32, 64, 128] ∧
    (save responses url fname).2 = .error ⟨(responses 7).text, url, fname⟩ := by
  rw [save_allFail responses url fname hfail]
  exact ⟨rfl, rfl, rfl⟩

/-- C2 amended witness: the backoff at a concrete failing network. -/
theorem save_backoff_seven_retries_w :
    countRetryRequests (save alwaysFail "url0" "dest0").1 = 7 ∧
    (save alwaysFail "url0" "dest0").1.filterMap (fun e => match e with
      | FetchEvent.slept n => some n
      | FetchEvent.request _ => none) = [1, 2, 4, 8, 16, 32, 64, 128] ∧
    (save alwaysFail "url0" "dest0").2 = .error ⟨"server error", "url0", "dest0"⟩ :=
  save_backoff_seven_retries alwaysFail "url0" "dest0" (fun n => by simp [alwaysFail])

/-- C10: only the initial request of `save` carries the browser header
set; every retry request is sent with no custom headers at all. -/
theorem save_retry_headers_absent (responses : Nat → Response) (url fname : String) :
    (save responses url fname).1.head? = some (.request browserHeaders) ∧
    ∀ e ∈ (save responses url fname).1.tail,
      ∀ hs, e = FetchEvent.request hs → hs = [] := by
  constructor
  · rfl
  · intro e he hs heq
    have hmem : e = FetchEvent.slept 1 ∨
        e ∈ (saveLoop responses url fname (responses 0) 1 0).1 := by
      simpa [save] using he
    rcases hmem with h1 | h2
    · rw [h1] at heq; cases heq
    · exact saveLoop_requests_headerless responses url fname 7 0 (responses 0) 1
        (by omega) e h2 hs heq

/-- C10 witness: the header shape of a concrete trace. -/
theorem save_retry_headers_absent_w :
    (save alwaysFail "u2" "f2").1.head? = some (.request browserHeaders) ∧
    ([] : List (String × String)) = [] :=
  ⟨(save_retry_headers_absent alwaysFail "u2" "f2").1,
   (save_retry_headers_absent alwaysFail "u2" "f2").2 (FetchEvent.request [])
     (by rw [save_allFail alwaysFail "u2" "f2" (fun n => by simp [alwaysFail])]; decide) [] rfl⟩

end NBA
